import Mathlib

/-!
Verification of the `parquet2peak` repository: a shallow embedding of its two
programs, `src/bin/blf2parquet.rs` (the Extraction Pipeline) and
`src/bin/parquet2peak.rs` (the Replay Scheduler), together with proofs of the
spec's claims about them.

Modelling conventions:
* Rust `f64` values (timestamps, percentages, measured overheads) are embedded
  as exact rationals `ℚ`; IEEE rounding is abstracted away, the comparison and
  arithmetic structure of the code is kept verbatim.
* Machine integers (`u16`, `u32`, `u64`) are embedded as `ℕ`; the code under
  study performs no wrapping arithmetic on them, only masking, which is
  modelled with `&&&` exactly as written.
* External effects (the BLF reader, the parquet row iterator, the PCAN socket,
  `Instant::now`) are passed in as explicit data: a list of decoded objects, a
  list of row-decoding results, a success oracle for each `send` call, and an
  oracle giving the wall-clock overhead measured at the end of each iteration.
* The Rust cast `f as u64` (used on a possibly negative `f64`) saturates at
  zero; it is modelled as `Int.toNat ∘ Int.floor`, which agrees with the cast
  on the values arising here (truncation and flooring coincide for the
  non-negative case, negatives go to zero either way).
-/

/-! ## Extraction Pipeline (`blf2parquet.rs`) -/

/-- One `CanMessage86` object as decoded by the external BLF reader:
`header.flags`, `header.timestamp_ns`, `channel`, `id`, `data`. -/
structure CanMsg where
  flags : ℕ
  timestamp_ns : ℕ
  channel : ℕ
  id : ℕ
  data : List ℕ
deriving DecidableEq

/-- A source-log object: either a CAN bus-message event or any other object
type (the `_ => {}` arm of the `match` in `blf2parquet.rs`). -/
inductive BlfObj where
  | canMessage86 : CanMsg → BlfObj
  | other : BlfObj
deriving DecidableEq

/-- The Canonical Record: one row of the interchange table
(`ts : f64`, `id : u32`, `data : list of u8`). -/
structure CanRecord where
  ts : ℚ
  id : ℕ
  data : List ℕ
deriving DecidableEq

/-- The timestamp computed at `blf2parquet.rs:102-106,111`: header start time
plus the per-event relative offset, interpreted in milliseconds when
`header.flags == 1` and in nanoseconds otherwise, expressed in seconds. -/
def decodeTs (startTs : ℚ) (flags timestamp_ns : ℕ) : ℚ :=
  startTs + (if flags = 1 then (timestamp_ns : ℚ) / 1000
             else (timestamp_ns : ℚ) / 1000000000)

/-- The position percentage computed at `blf2parquet.rs:92`:
`((c as f64) / (objects as f64)) * 100.0` for the `c`-th object (1-based). -/
def percOf (objects c : ℕ) : ℚ := ((c : ℚ) / (objects : ℚ)) * 100

/-- The body of the `match obj.data` at `blf2parquet.rs:100-124`: a
bus-message event on the configured channel contributes one record, whose
identifier is masked with `0x1FFFFFFF`; everything else contributes nothing. -/
def emitObj (startTs : ℚ) (channel : ℕ) : BlfObj → List CanRecord
  | .canMessage86 m =>
      if m.channel = channel then
        [⟨decodeTs startTs m.flags m.timestamp_ns, m.id &&& 0x1FFFFFFF, m.data⟩]
      else []
  | .other => []

/-- The windowed scan of `blf2parquet.rs:90-98`: `c` is incremented first,
positions below `startP` are skipped (`continue`), the first position above
`endP` stops the whole scan (`break`), everything else is processed. Returns
the processed objects paired with their 1-based position. -/
def windowedScan {α : Type} (startP endP : ℚ) (objects : ℕ) :
    List α → ℕ → List (ℕ × α)
  | [], _ => []
  | x :: rest, c =>
      let c' := c + 1
      if percOf objects c' < startP then windowedScan startP endP objects rest c'
      else if endP < percOf objects c' then []
      else (c', x) :: windowedScan startP endP objects rest c'

/-- The full extraction loop of `blf2parquet.rs:90-125`: the windowed scan
followed by the per-object `match` emitting Canonical Records in encounter
order. -/
def extractRecords (startP endP : ℚ) (objects : ℕ) (startTs : ℚ) (channel : ℕ)
    (objs : List BlfObj) : List CanRecord :=
  ((windowedScan startP endP objects objs 0).map
    (fun p => emitObj startTs channel p.2)).flatten

/-- 1-based indexing of a list, mirroring the loop counter `c`. -/
def idxFrom {α : Type} : ℕ → List α → List (ℕ × α)
  | _, [] => []
  | n, x :: rest => (n + 1, x) :: idxFrom (n + 1) rest

/-! ## Replay Scheduler (`parquet2peak.rs`) -/

/-- An element of a parquet list field: the code only distinguishes `UByte`
elements (pushed onto the payload) from everything else (skipped). -/
inductive PqElem where
  | ubyte (v : ℕ)
  | otherElem
deriving DecidableEq

/-- One field of a parquet row as surfaced by the external table reader
(only the variants the code inspects are distinguished). -/
inductive PqField where
  | double (v : ℚ)
  | uint (v : ℕ)
  | listF (elems : List PqElem)
  | otherF
deriving DecidableEq

/-- `process_row` (`parquet2peak.rs:22-36`): field 0 must be a double, field 1
an unsigned integer (each `?` failure makes the whole row fail); a missing or
non-list field 2 is tolerated and yields an empty payload, and only `UByte`
elements of the list are collected. -/
def process_row (row : List PqField) : Option CanRecord :=
  match row[0]?, row[1]? with
  | some (PqField.double t), some (PqField.uint i) =>
      let data := match row[2]? with
        | some (PqField.listF l) =>
            l.filterMap (fun f =>
              match f with | PqElem.ubyte v => some v | _ => none)
        | _ => []
      some ⟨t, i, data⟩
  | _, _ => none

/-- The loading loop of `parquet2peak.rs:142-150`. The row iterator is a list
of decode results; `while let Some(Ok(row))` stops at the end of the stream
*or* at the first row the reader fails to decode. A row whose field extraction
(`process_row`) fails is counted in `elem` but contributes nothing; a record
whose identifier is in the exclusion list is dropped before collection.
Returns `(content, felem, elem)`. -/
def loadLoop (exclude : List ℕ) :
    List (Except Unit (List PqField)) → (List CanRecord × ℕ × ℕ)
  | [] => ([], 0, 0)
  | .error _ :: _ => ([], 0, 0)
  | .ok row :: rest =>
      let out := loadLoop exclude rest
      match process_row row with
      | some r =>
          if exclude.contains r.id = false then
            (r :: out.1, out.2.1 + 1, out.2.2 + 1)
          else (out.1, out.2.1, out.2.2 + 1)
      | none => (out.1, out.2.1, out.2.2 + 1)

/-- The sleep amount of `parquet2peak.rs:49-51`:
`diff = max(curr - previous, 0) * 1e9 - passive_timing_ns`, then
`(diff / 1000.0) as u64` (the cast truncates and saturates negative values at
zero), giving whole microseconds. -/
def udiff (curr previous passiveNs : ℚ) : ℕ :=
  (⌊(max (curr - previous) 0 * 1000000000 - passiveNs) / 1000⌋).toNat

/-- Observable outcome of one `send_can_messages` pass:
`sleeps` — the microsecond sleep performed before each frame after the first;
`attempted` — the 0-based indices of frames actually submitted to the socket;
`sent` — the counter `c` of successfully sent frames;
`ok` — whether the function returned `Ok(())`;
`finalPercNum`/`finalPercDen` — numerator `c` and divisor `content_size` of
the unconditional final progress computation at `parquet2peak.rs:83`. -/
structure PassOut where
  sleeps : List ℕ
  attempted : List ℕ
  sent : ℕ
  ok : Bool
  finalPercNum : ℕ
  finalPercDen : ℕ
deriving DecidableEq

/-- The loop body of `send_can_messages` (`parquet2peak.rs:47-82`), iterated
over the remaining records. `sOk k` is the success of the `k`-th `socket.send`
call, `fOk r` the success of `CanFrame::new` for record `r`, `ovh k` the
wall-clock nanoseconds measured by `start.elapsed()` at the end of iteration
`k`. State: `old` is `old_timing`, `passive` is `passive_timing` in
nanoseconds, `k` the iteration index (equal to `c`, since the loop is left on
the first failure). A `CanFrame::new` failure propagates as `Err` (`ok =
false`); a `socket.send` failure breaks out of the loop and the function still
returns `Ok(())`. -/
def sendLoop (sOk : ℕ → Bool) (fOk : CanRecord → Bool) (ovh : ℕ → ℚ) :
    List CanRecord → Option ℚ → ℚ → ℕ → (List ℕ × List ℕ × ℕ × Bool)
  | [], _, _, k => ([], [], k, true)
  | r :: rest, old, passive, k =>
      let sl : List ℕ := match old with
        | some previous => [udiff r.ts previous passive]
        | none => []
      if fOk r = false then (sl, [], k, false)
      else if sOk k = false then (sl, [k], k, true)
      else
        let out := sendLoop sOk fOk ovh rest (some r.ts) (ovh k) (k + 1)
        (sl ++ out.1, k :: out.2.1, out.2.2)

/-- `send_can_messages` (`parquet2peak.rs:38-86`): run the loop from the
initial state (`old_timing = None`, `passive_timing = 0`, `c = 0`) and record
the numerator and divisor of the final progress computation. -/
def send_can_messages (sOk : ℕ → Bool) (fOk : CanRecord → Bool) (ovh : ℕ → ℚ)
    (content : List CanRecord) : PassOut :=
  let o := sendLoop sOk fOk ovh content none 0 0
  ⟨o.1, o.2.1, o.2.2.1, o.2.2.2, o.2.2.1, content.length⟩

/-- The replay loop of `main` (`parquet2peak.rs:167-176`), with `fuel` bounding
how many passes are observed (the Rust loop is unbounded). A pass returning
`Err` (only a frame-construction error does) stops the loop; otherwise the
loop stops iff `forever` is false. `sOk p k` is the send oracle for pass `p`.
Returns the number of passes executed within `fuel`. -/
def runReplay (sOk : ℕ → ℕ → Bool) (fOk : CanRecord → Bool) (ovh : ℕ → ℚ)
    (content : List CanRecord) (forever : Bool) : ℕ → ℕ → ℕ
  | _, 0 => 0
  | p, fuel + 1 =>
      if (send_can_messages (sOk p) fOk ovh content).ok = false then 1
      else if forever = false then 1
      else 1 + runReplay sOk fOk ovh content forever (p + 1) fuel

/-! ### Exclusion-list parsing (`parse_hex_list`, `parquet2peak.rs:88-94`) -/

/-- Whitespace as recognised by Rust's `str::trim`, i.e. `char::is_whitespace`:
the Unicode White_Space property (U+0009–U+000D, U+0020, U+0085, U+00A0,
U+1680, U+2000–U+200A, U+2028, U+2029, U+202F, U+205F, U+3000). -/
def isWs (ch : Char) : Bool :=
  (0x09 ≤ ch.toNat ∧ ch.toNat ≤ 0x0d) ∨ ch.toNat = 0x20 ∨
  ch.toNat = 0x85 ∨ ch.toNat = 0xa0 ∨ ch.toNat = 0x1680 ∨
  (0x2000 ≤ ch.toNat ∧ ch.toNat ≤ 0x200a) ∨
  ch.toNat = 0x2028 ∨ ch.toNat = 0x2029 ∨ ch.toNat = 0x202f ∨
  ch.toNat = 0x205f ∨ ch.toNat = 0x3000

/-- `str::trim`: remove leading and trailing whitespace. -/
def trimWs (s : List Char) : List Char :=
  ((s.dropWhile isWs).reverse.dropWhile isWs).reverse

/-- `str::strip_prefix("0x")`: the remainder after a literal `0x`, if present. -/
def strip0x : List Char → Option (List Char)
  | '0' :: 'x' :: rest => some rest
  | _ => none

/-- The numeric value of one hexadecimal digit (both cases), if any. -/
def hexVal (ch : Char) : Option ℕ :=
  if '0' ≤ ch ∧ ch ≤ '9' then some (ch.toNat - '0'.toNat)
  else if 'a' ≤ ch ∧ ch ≤ 'f' then some (ch.toNat - 'a'.toNat + 10)
  else if 'A' ≤ ch ∧ ch ≤ 'F' then some (ch.toNat - 'A'.toNat + 10)
  else none

/-- The digit-accumulation loop of `u32::from_str_radix(_, 16)`: any non-digit
or any intermediate value no longer representable in 32 bits is an error. -/
def hexCore : List Char → ℕ → Option ℕ
  | [], acc => some acc
  | ch :: rest, acc =>
      match hexVal ch with
      | some d =>
          if acc * 16 + d < 4294967296 then hexCore rest (acc * 16 + d)
          else none
      | none => none

/-- `u32::from_str_radix(s, 16)`: an optional leading `+` (a leading `-` is
consumed only for signed integer types, so for `u32` it falls through to
digit parsing and is rejected as an invalid digit), then a non-empty run of
hexadecimal digits whose value fits in 32 bits. -/
def from_str_radix16 : List Char → Option ℕ
  | '+' :: rest => if rest = [] then none else hexCore rest 0
  | s => if s = [] then none else hexCore s 0

/-- Rust `str::split(',')`: the empty string yields one empty entry, and each
comma starts a new (possibly empty) entry. -/
def splitComma : List Char → List (List Char)
  | [] => [[]]
  | ',' :: rest => [] :: splitComma rest
  | ch :: rest =>
      match splitComma rest with
      | e :: es => (ch :: e) :: es
      | [] => [[ch]]

/-- The per-entry pipeline inside the `filter_map` of `parse_hex_list`:
`num.trim().strip_prefix("0x").and_then(|hex| u32::from_str_radix(hex, 16).ok())`. -/
def entryVal (num : List Char) : Option ℕ :=
  (strip0x (trimWs num)).bind from_str_radix16

/-- `parse_hex_list` (`parquet2peak.rs:88-94`): `unwrap_or_default`, split on
commas, and keep the entries whose per-entry pipeline succeeds. -/
def parse_hex_list (input : Option (List Char)) : List ℕ :=
  (splitComma (input.getD [])).filterMap entryVal

/-- The window-membership test on a 1-based position. -/
def inWindow (s e : ℚ) (objects i : ℕ) : Bool :=
  decide (s ≤ percOf objects i) && decide (percOf objects i ≤ e)

/-- The spec-side pacing schedule, written exactly after the spec's words
(§4.2 step 1): for each pair of consecutive timestamps, the desired gap is
`max(0, current − previous)` in nanoseconds, minus the overhead measured in
the prior iteration, floored to whole microseconds. Used to compare against
the code-side `sendLoop`. -/
def specGapMicros (ovh : ℕ → ℚ) : List ℚ → ℕ → List ℕ
  | t1 :: t2 :: rest, k =>
      (⌊(max (t2 - t1) 0 * 1000000000 - ovh k) / 1000⌋).toNat ::
        specGapMicros ovh (t2 :: rest) (k + 1)
  | _, _ => []

/-- Three decodable rows with identifiers 1, 2, 3 and timestamps 0, 1, 3
(seconds), used to instantiate the exclusion-filtering claim. -/
def canRows3 : List (Except Unit (List PqField)) :=
  [Except.ok [PqField.double 0, PqField.uint 1, PqField.listF []],
   Except.ok [PqField.double 1, PqField.uint 2, PqField.listF []],
   Except.ok [PqField.double 3, PqField.uint 3, PqField.listF []]]

/-- A decodable row (double timestamp 1, identifier 5, empty payload). -/
def goodRow : List PqField := [PqField.double 1, PqField.uint 5, PqField.listF []]

/-! ## Helper lemmas about the windowed scan -/

/-- The mask literal `0x1FFFFFFF` is `2 ^ 29 - 1`, so masking with it is
reduction modulo `2 ^ 29`. -/
theorem mask29_eq_mod (x : ℕ) : x &&& 0x1FFFFFFF = x % 2 ^ 29 := by
  show x &&& (2 ^ 29 - 1) = x % 2 ^ 29
  rw [Nat.and_pow_two_sub_one_eq_mod]

theorem percOf_mono {objects j j' : ℕ} (h : j ≤ j') :
    percOf objects j ≤ percOf objects j' := by
  rcases Nat.eq_zero_or_pos objects with h0 | h0
  · simp [percOf, h0]
  · have hN : (0 : ℚ) < objects := by exact_mod_cast h0
    have hj : (j : ℚ) ≤ (j' : ℚ) := by exact_mod_cast h
    exact mul_le_mul_of_nonneg_right ((div_le_div_iff_of_pos_right hN).mpr hj)
      (by norm_num)

theorem idxFrom_fst_lb {α : Type} :
    ∀ (l : List α) (n : ℕ) (p : ℕ × α), p ∈ idxFrom n l → n + 1 ≤ p.1
  | [], _, _, h => by simp [idxFrom] at h
  | x :: rest, n, p, h => by
      simp only [idxFrom, List.mem_cons] at h
      rcases h with h | h
      · simp [h]
      · have := idxFrom_fst_lb rest (n + 1) p h
        omega

theorem idxFrom_mem_of_bounds {α : Type} :
    ∀ (l : List α) (n i : ℕ), n + 1 ≤ i → i ≤ n + l.length →
      ∃ o, (i, o) ∈ idxFrom n l
  | [], n, i, h1, h2 => by simp at h2; omega
  | x :: rest, n, i, h1, h2 => by
      rcases eq_or_lt_of_le h1 with heq | hlt
      · exact ⟨x, by simp [idxFrom, ← heq]⟩
      · obtain ⟨o, ho⟩ := idxFrom_mem_of_bounds rest (n + 1) i (by omega)
          (by simp at h2; omega)
        exact ⟨o, by simp [idxFrom, List.mem_cons]; right; exact ho⟩

/-- The scan of `blf2parquet.rs:90-98` processes exactly the positions whose
percentage lies in the window: skipping below the start and breaking above the
end is, thanks to the monotonicity of the position percentage, the same as
filtering by the window test. -/
theorem windowedScan_eq_filter {α : Type} (s e : ℚ) (N : ℕ) :
    ∀ (l : List α) (c : ℕ),
      windowedScan s e N l c =
        (idxFrom c l).filter (fun p => inWindow s e N p.1)
  | [], c => by simp [windowedScan, idxFrom]
  | x :: rest, c => by
      simp only [windowedScan, idxFrom, List.filter_cons]
      by_cases h1 : percOf N (c + 1) < s
      · have hw : inWindow s e N (c + 1) = false := by
          simp [inWindow, not_le.mpr h1]
        simp [h1, hw, windowedScan_eq_filter s e N rest (c + 1)]
      · by_cases h2 : e < percOf N (c + 1)
        · have hw : inWindow s e N (c + 1) = false := by
            simp [inWindow, not_le.mpr h2]
          have hnil : (idxFrom (c + 1) rest).filter
              (fun p => inWindow s e N p.1) = [] := by
            rw [List.filter_eq_nil_iff]
            intro p hp
            have hlb := idxFrom_fst_lb rest (c + 1) p hp
            have hm : percOf N (c + 1) ≤ percOf N p.1 := percOf_mono (by omega)
            simp only [inWindow, Bool.and_eq_true, decide_eq_true_eq, not_and,
              not_le]
            intro _
            exact lt_of_lt_of_le h2 hm
          simp [h1, h2, hw, hnil]
        · have hw : inWindow s e N (c + 1) = true := by
            simp [inWindow, not_lt.mp h1, not_lt.mp h2]
          simp [h1, h2, hw, windowedScan_eq_filter s e N rest (c + 1)]

/-- Once the position right after `l` is past the window's end, objects there
are never scanned: the result over `l ++ extra` is the result over `l` alone. -/
theorem windowedScan_stops {α : Type} (s e : ℚ) (N : ℕ) (hse : s ≤ e) :
    ∀ (l extra : List α) (c : ℕ), e < percOf N (c + l.length + 1) →
      windowedScan s e N (l ++ extra) c = windowedScan s e N l c
  | [], extra, c, h => by
      cases extra with
      | nil => rfl
      | cons y t =>
          have h' : e < percOf N (c + 1) := by simpa using h
          have hns : ¬(percOf N (c + 1) < s) :=
            not_lt.mpr (le_trans hse (le_of_lt h'))
          simp [windowedScan, hns, h']
  | x :: rest, extra, c, h => by
      have h' : e < percOf N ((c + 1) + rest.length + 1) := by
        have : (c + 1) + rest.length + 1 = c + (x :: rest).length + 1 := by
          simp; omega
        rw [this]; exact h
      simp only [List.cons_append, windowedScan]
      by_cases h1 : percOf N (c + 1) < s
      · simp [h1, windowedScan_stops s e N hse rest extra (c + 1) h']
      · by_cases h2 : e < percOf N (c + 1)
        · simp [h1, h2]
        · simp [h1, h2, windowedScan_stops s e N hse rest extra (c + 1) h']

/-- Flattening preserves the sublist relation. -/
theorem flatten_sublist_of_sublist {α : Type} {L₁ L₂ : List (List α)}
    (h : List.Sublist L₁ L₂) : List.Sublist L₁.flatten L₂.flatten := by
  induction h with
  | slnil => exact List.Sublist.refl _
  | cons a _ ih =>
      rw [List.flatten_cons]
      exact ih.trans (List.sublist_append_right a _)
  | cons₂ a _ ih =>
      rw [List.flatten_cons, List.flatten_cons]
      exact ih.append_left a

/-! ## Claims about the Extraction Pipeline -/

/-- C2: for a log of `N` objects and a window `[s, e]`, the scan includes the
source object at (1-based) position `i` iff `s ≤ 100·i/N ≤ e`; the lower
bound is inclusive (objects below the window are skipped with the scan
continuing), and objects beyond the first position exceeding `e` are never
scanned, so the scan never resumes past the window. -/
theorem extraction_window_inclusion
    (s e : ℚ) (N : ℕ) (objs : List BlfObj) (i : ℕ)
    (hlen : objs.length = N) (h1 : 1 ≤ i) (h2 : i ≤ N) (hse : s ≤ e) :
    (i ∈ (windowedScan s e N objs 0).map Prod.fst ↔
      (s ≤ percOf N i ∧ percOf N i ≤ e)) ∧
    (∀ l extra : List BlfObj, e < percOf N (l.length + 1) →
      windowedScan s e N (l ++ extra) 0 = windowedScan s e N l 0) := by
  constructor
  · rw [windowedScan_eq_filter]
    simp only [List.mem_map, List.mem_filter]
    constructor
    · rintro ⟨p, ⟨hmem, htest⟩, rfl⟩
      simpa [inWindow] using htest
    · rintro ⟨ha, hb⟩
      obtain ⟨o, ho⟩ := idxFrom_mem_of_bounds objs 0 i (by omega) (by omega)
      exact ⟨(i, o), ⟨ho, by simp [inWindow, ha, hb]⟩, rfl⟩
  · intro l extra hcut
    exact windowedScan_stops s e N hse l extra 0 (by simpa using hcut)

theorem extraction_window_inclusion_witness :
    (1 : ℕ) ∈ (windowedScan 0 100 1 [BlfObj.other] 0).map Prod.fst :=
  (extraction_window_inclusion 0 100 1 [BlfObj.other] 1 rfl (by norm_num)
    (by norm_num) (by norm_num)).1.mpr (by norm_num [percOf])

/-- C9: for a fixed log, channel, start time and object count, widening the
extraction window can only increase the number of extracted records: the
narrow window's scan result is a sublist of the wide one's, and emission is
applied pointwise. -/
theorem extraction_count_monotone
    (s1 e1 s2 e2 : ℚ) (N : ℕ) (T0 : ℚ) (ch : ℕ) (objs : List BlfObj)
    (h0 : 0 ≤ s2) (hs : s2 ≤ s1) (hm : s1 ≤ e1) (he : e1 ≤ e2)
    (h100 : e2 ≤ 100) :
    (extractRecords s1 e1 N T0 ch objs).length ≤
      (extractRecords s2 e2 N T0 ch objs).length := by
  unfold extractRecords
  have hsub : List.Sublist (windowedScan s1 e1 N objs 0)
      (windowedScan s2 e2 N objs 0) := by
    rw [windowedScan_eq_filter, windowedScan_eq_filter]
    refine List.monotone_filter_right _ ?_
    intro p hp
    simp only [inWindow, Bool.and_eq_true, decide_eq_true_eq] at hp ⊢
    exact ⟨le_trans hs hp.1, le_trans hp.2 he⟩
  exact (flatten_sublist_of_sublist
    (hsub.map (fun p => emitObj T0 ch p.2))).length_le

theorem extraction_count_monotone_witness :
    (extractRecords 40 60 4 0 1
        [BlfObj.other, BlfObj.other, BlfObj.other, BlfObj.other]).length ≤
      (extractRecords 0 100 4 0 1
        [BlfObj.other, BlfObj.other, BlfObj.other, BlfObj.other]).length :=
  extraction_count_monotone 40 60 0 100 4 0 1
    [BlfObj.other, BlfObj.other, BlfObj.other, BlfObj.other]
    (by norm_num) (by norm_num) (by norm_num) (by norm_num) (by norm_num)

/-- C6: the relative-timestamp unit is decoded per event from its own flag —
`1` means milliseconds, anything else nanoseconds — and the emitted absolute
timestamp is the header start time plus the decoded offset. A log mixing both
encodings decodes each event by its own flag; with start `T0`, offset `1500`
and flag `1` the result is `T0 + 1.5` seconds, and with flag `0` and offset
`1500000000` it is also `T0 + 1.5` seconds. -/
theorem timestamp_decode_per_event
    (T0 : ℚ) (ch : ℕ) (m1 m2 : CanMsg)
    (hc1 : m1.channel = ch) (hc2 : m2.channel = ch)
    (hf1 : m1.flags = 1) (hf2 : m2.flags ≠ 1) :
    extractRecords 0 100 2 T0 ch [.canMessage86 m1, .canMessage86 m2] =
      [⟨T0 + (m1.timestamp_ns : ℚ) / 1000, m1.id &&& 0x1FFFFFFF, m1.data⟩,
       ⟨T0 + (m2.timestamp_ns : ℚ) / 1000000000,
        m2.id &&& 0x1FFFFFFF, m2.data⟩] ∧
    extractRecords 0 100 1 T0 ch [.canMessage86 ⟨1, 1500, ch, 5, []⟩] =
      [⟨T0 + 3 / 2, 5, []⟩] ∧
    extractRecords 0 100 1 T0 ch [.canMessage86 ⟨0, 1500000000, ch, 5, []⟩] =
      [⟨T0 + 3 / 2, 5, []⟩] := by
  refine ⟨?_, ?_, ?_⟩ <;>
    norm_num [extractRecords, windowedScan, percOf, emitObj, decodeTs,
      hc1, hc2, hf1, hf2, mask29_eq_mod]

theorem timestamp_decode_per_event_witness :
    extractRecords 0 100 2 0 1
      [.canMessage86 ⟨1, 1500, 1, 7, []⟩,
       .canMessage86 ⟨0, 1500000000, 1, 8, []⟩] =
      [⟨0 + (1500 : ℚ) / 1000, 7 &&& 0x1FFFFFFF, []⟩,
       ⟨0 + (1500000000 : ℚ) / 1000000000, 8 &&& 0x1FFFFFFF, []⟩] :=
  (timestamp_decode_per_event 0 1 ⟨1, 1500, 1, 7, []⟩ ⟨0, 1500000000, 1, 8, []⟩
    rfl rfl rfl (by norm_num)).1

/-- C7: every emitted identifier is masked to 29 bits (masking with
`0x1FFFFFFF` is reduction modulo `2 ^ 29`, so no high flag bit of the source
field survives), and the input identifier field `0xA0000123` decodes to
`0x00000123`. -/
theorem identifier_mask_29bits :
    (∀ (s e : ℚ) (N : ℕ) (T0 : ℚ) (ch : ℕ) (objs : List BlfObj),
      ((extractRecords s e N T0 ch objs).all
        (fun r => decide (r.id < 2 ^ 29))) = true) ∧
    (∀ x : ℕ, x &&& 0x1FFFFFFF = x % 2 ^ 29) ∧
    (extractRecords 0 100 1 0 1 [.canMessage86 ⟨0, 0, 1, 0xA0000123, []⟩]).map
        CanRecord.id = [0x00000123] := by
  refine ⟨?_, mask29_eq_mod, ?_⟩
  · intro s e N T0 ch objs
    rw [List.all_eq_true]
    intro r hr
    unfold extractRecords at hr
    rw [List.mem_flatten] at hr
    obtain ⟨l, hl, hrl⟩ := hr
    rw [List.mem_map] at hl
    obtain ⟨p, hp, rfl⟩ := hl
    obtain ⟨i, obj⟩ := p
    cases obj with
    | canMessage86 m =>
        by_cases hch : m.channel = ch
        · simp only [emitObj, hch, if_pos, List.mem_singleton] at hrl
          subst hrl
          simp only [decide_eq_true_eq, mask29_eq_mod]
          exact Nat.mod_lt _ (by norm_num)
        · simp [emitObj, hch] at hrl
    | other => simp [emitObj] at hrl
  · norm_num [extractRecords, windowedScan, percOf, emitObj, decodeTs,
      mask29_eq_mod]

/-! ## Helper lemmas about the replay loop -/

/-- If every frame is constructible, a pass returns `Ok(())` — whether or not
any `socket.send` fails. -/
theorem sendLoop_ok (sOk : ℕ → Bool) (fOk : CanRecord → Bool) (ovh : ℕ → ℚ) :
    ∀ (content : List CanRecord) (old : Option ℚ) (passive : ℚ) (k : ℕ),
      (∀ r ∈ content, fOk r = true) →
      (sendLoop sOk fOk ovh content old passive k).2.2.2 = true
  | [], _, _, _, _ => rfl
  | r :: rest, old, passive, k, hf => by
      have hr : fOk r = true := hf r (List.mem_cons_self r rest)
      cases hs : sOk k with
      | false => simp [sendLoop, hr, hs]
      | true =>
          simp [sendLoop, hr, hs,
            sendLoop_ok sOk fOk ovh rest (some r.ts) (ovh k) (k + 1)
              (fun x hx => hf x (List.mem_cons_of_mem r hx))]

/-- A frame is submitted to the socket only if every earlier submission
succeeded: the pass aborts at the first send failure. -/
theorem sendLoop_attempted_mono (sOk : ℕ → Bool) (fOk : CanRecord → Bool)
    (ovh : ℕ → ℚ) :
    ∀ (content : List CanRecord) (old : Option ℚ) (passive : ℚ) (k0 j : ℕ),
      j ∈ (sendLoop sOk fOk ovh content old passive k0).2.1 →
      ∀ i, k0 ≤ i → i < j → sOk i = true
  | [], _, _, k0, j, hj => by simp [sendLoop] at hj
  | r :: rest, old, passive, k0, j, hj => by
      cases hr : fOk r with
      | false => simp [sendLoop, hr] at hj
      | true =>
          cases hs : sOk k0 with
          | false =>
              simp [sendLoop, hr, hs] at hj
              subst hj
              intro i h1 h2
              omega
          | true =>
              simp [sendLoop, hr, hs] at hj
              intro i h1 h2
              rcases hj with rfl | hj
              · omega
              · rcases eq_or_lt_of_le h1 with rfl | hlt
                · exact hs
                · exact sendLoop_attempted_mono sOk fOk ovh rest (some r.ts)
                    (ovh k0) (k0 + 1) j hj i (by omega) h2

/-- When all frames are constructible and all sends succeed, the sleeps of the
tail of a pass (previous timestamp `prev`, iteration index `k + 1`,
`passive_timing` = the overhead measured in iteration `k`) follow the
spec-side schedule. -/
theorem sendLoop_sleeps (sOk : ℕ → Bool) (fOk : CanRecord → Bool)
    (ovh : ℕ → ℚ) (hs : ∀ k, sOk k = true) :
    ∀ (content : List CanRecord) (prev : ℚ) (k : ℕ),
      (∀ r ∈ content, fOk r = true) →
      (sendLoop sOk fOk ovh content (some prev) (ovh k) (k + 1)).1 =
        specGapMicros ovh (prev :: content.map CanRecord.ts) k
  | [], prev, k, _ => by simp [sendLoop, specGapMicros]
  | r :: rest, prev, k, hf => by
      have hr : fOk r = true := hf r (List.mem_cons_self r rest)
      simp only [sendLoop, hr, hs (k + 1), List.map_cons, specGapMicros]
      simp only [Bool.true_eq_false, if_false]
      rw [sendLoop_sleeps sOk fOk ovh hs rest r.ts (k + 1)
        (fun x hx => hf x (List.mem_cons_of_mem r hx))]
      simp [udiff]

/-- Top-level form of `sendLoop_sleeps`: with every frame constructible and
every send successful, the sleeps of a whole pass are the spec-side schedule
over the records' timestamps. -/
theorem send_sleeps_eq_spec (sOk : ℕ → Bool) (fOk : CanRecord → Bool)
    (ovh : ℕ → ℚ) (content : List CanRecord)
    (hf : ∀ r ∈ content, fOk r = true) (hs : ∀ k, sOk k = true) :
    (send_can_messages sOk fOk ovh content).sleeps =
      specGapMicros ovh (content.map CanRecord.ts) 0 := by
  cases content with
  | nil => rfl
  | cons r rest =>
      have hr : fOk r = true := hf r (List.mem_cons_self r rest)
      simp only [send_can_messages, sendLoop, hr, hs 0, List.map_cons]
      simp only [Bool.true_eq_false, if_false]
      rw [show (0 : ℕ) + 1 = 0 + 1 from rfl]
      rw [sendLoop_sleeps sOk fOk ovh hs rest r.ts 0
        (fun x hx => hf x (List.mem_cons_of_mem r hx))]
      simp

/-- With the loop flag set and every frame constructible, every pass within
the observation bound runs: no send failure ever stops the outer loop. -/
theorem runReplay_forever (sOk : ℕ → ℕ → Bool) (fOk : CanRecord → Bool)
    (ovh : ℕ → ℚ) (content : List CanRecord)
    (hf : ∀ r ∈ content, fOk r = true) :
    ∀ (fuel p : ℕ), runReplay sOk fOk ovh content true p fuel = fuel
  | 0, _ => rfl
  | fuel + 1, p => by
      have hok : (send_can_messages (sOk p) fOk ovh content).ok = true := by
        simpa [send_can_messages] using
          sendLoop_ok (sOk p) fOk ovh content none 0 0 hf
      simp [runReplay, hok,
        runReplay_forever sOk fOk ovh content hf fuel (p + 1)]
      omega

/-! ## Claims about the Replay Scheduler -/

/-- C1 counterexample: with the loop flag set, a transmission error on the
only frame of a pass does not stop looping. The `socket.send` failure does
`break` (the frame at index 0 is the last one submitted) but
`send_can_messages` then returns `Ok(())`; `main`'s loop therefore restarts
and a second pass is executed, contradicting the claim that no further pass
is started after the failing frame. -/
theorem tx_error_keeps_looping :
    (send_can_messages (fun _ => false) (fun _ => true) (fun _ => 0)
      [⟨0, 1, []⟩]).attempted = [0] ∧
    (send_can_messages (fun _ => false) (fun _ => true) (fun _ => 0)
      [⟨0, 1, []⟩]).ok = true ∧
    runReplay (fun _ _ => false) (fun _ => true) (fun _ => 0)
      [⟨0, 1, []⟩] true 0 2 = 2 := by
  refine ⟨rfl, rfl, ?_⟩
  simp [runReplay, send_can_messages, sendLoop]

/-- C1 amended: a transmission error aborts the current pass immediately — a
frame is submitted only if every earlier submission of the pass succeeded —
but `send_can_messages` swallows the error and returns `Ok(())` whenever all
frames are constructible, so with the loop flag set the outer loop always
restarts: a transmission error never stops looping (only a
frame-construction error does). -/
theorem tx_error_aborts_pass_not_loop (sOk : ℕ → ℕ → Bool)
    (fOk : CanRecord → Bool) (ovh : ℕ → ℚ) (content : List CanRecord)
    (p j : ℕ) (hf : ∀ r ∈ content, fOk r = true) :
    (send_can_messages (sOk p) fOk ovh content).ok = true ∧
    (j ∈ (send_can_messages (sOk p) fOk ovh content).attempted →
      ∀ i, i < j → sOk p i = true) ∧
    (∀ fuel, runReplay sOk fOk ovh content true p fuel = fuel) := by
  refine ⟨?_, ?_, fun fuel => runReplay_forever sOk fOk ovh content hf fuel p⟩
  · simpa [send_can_messages] using
      sendLoop_ok (sOk p) fOk ovh content none 0 0 hf
  · intro hj i hij
    exact sendLoop_attempted_mono (sOk p) fOk ovh content none 0 0 j
      (by simpa [send_can_messages] using hj) i (Nat.zero_le i) hij

theorem tx_error_aborts_pass_not_loop_witness :
    (send_can_messages ((fun _ _ => false) 0) (fun _ => true) (fun _ => 0)
      [(⟨0, 1, []⟩ : CanRecord)]).ok = true ∧
    ((0 : ℕ) ∈ (send_can_messages ((fun _ _ => false) 0) (fun _ => true)
        (fun _ => 0) [(⟨0, 1, []⟩ : CanRecord)]).attempted →
      ∀ i, i < 0 → (fun _ _ => false) 0 i = true) ∧
    (∀ fuel, runReplay (fun _ _ => false) (fun _ => true) (fun _ => 0)
      [(⟨0, 1, []⟩ : CanRecord)] true 0 fuel = fuel) :=
  tx_error_aborts_pass_not_loop (fun _ _ => false) (fun _ => true) (fun _ => 0)
    [⟨0, 1, []⟩] 0 0 (fun r _ => rfl)

/-- C3: between consecutive replayed records the scheduler suspends for
`max(0, current − previous)` seconds converted to nanoseconds, minus the
overhead measured in the previous iteration, floored to whole microseconds
(the schedule `specGapMicros` written from the spec's words); in particular
for timestamps `10.000` and `10.010` it suspends 10,000 µs with zero measured
overhead and 7,000 µs with 3,000 µs (3,000,000 ns) of measured overhead. -/
theorem replay_gap_compensation (sOk : ℕ → Bool) (fOk : CanRecord → Bool)
    (ovh : ℕ → ℚ) (content : List CanRecord)
    (hf : ∀ r ∈ content, fOk r = true) (hs : ∀ k, sOk k = true) :
    (send_can_messages sOk fOk ovh content).sleeps =
      specGapMicros ovh (content.map CanRecord.ts) 0 ∧
    (send_can_messages (fun _ => true) (fun _ => true) (fun _ => 0)
      [⟨10, 1, []⟩, ⟨10.010, 1, []⟩]).sleeps = [10000] ∧
    (send_can_messages (fun _ => true) (fun _ => true) (fun _ => 3000000)
      [⟨10, 1, []⟩, ⟨10.010, 1, []⟩]).sleeps = [7000] := by
  refine ⟨send_sleeps_eq_spec sOk fOk ovh content hf hs, ?_, ?_⟩
  · rw [send_sleeps_eq_spec _ _ _ _ (fun r _ => rfl) (fun k => rfl)]
    have hmax : max ((10.010 : ℚ) - 10) 0 = 1 / 100 := by
      rw [max_eq_left (by norm_num)]
      norm_num
    norm_num [specGapMicros, hmax]
    rfl
  · rw [send_sleeps_eq_spec _ _ _ _ (fun r _ => rfl) (fun k => rfl)]
    have hmax : max ((10.010 : ℚ) - 10) 0 = 1 / 100 := by
      rw [max_eq_left (by norm_num)]
      norm_num
    norm_num [specGapMicros, hmax]
    rfl

theorem replay_gap_compensation_witness :
    (send_can_messages (fun _ => true) (fun _ => true) (fun _ => 0)
      [(⟨10, 1, []⟩ : CanRecord), ⟨10.010, 1, []⟩]).sleeps =
      specGapMicros (fun _ => 0)
        ([(⟨10, 1, []⟩ : CanRecord), ⟨10.010, 1, []⟩].map CanRecord.ts) 0 :=
  (replay_gap_compensation (fun _ => true) (fun _ => true) (fun _ => 0)
    [⟨10, 1, []⟩, ⟨10.010, 1, []⟩] (fun r _ => rfl) (fun k => rfl)).1

/-- C5 counterexample: for a zero-record table the final progress report at
`parquet2peak.rs:83` still computes `c / content_size` with
`content_size = 0`: the division by zero is performed (IEEE arithmetic yields
NaN, which is printed), there is no empty-sequence guard. The pass does
complete with zero frames sent and returns success. -/
theorem empty_replay_divides_by_zero :
    (send_can_messages (fun _ => true) (fun _ => true) (fun _ => 0)
      []).finalPercDen = 0 ∧
    (send_can_messages (fun _ => true) (fun _ => true) (fun _ => 0)
      []).sent = 0 ∧
    (send_can_messages (fun _ => true) (fun _ => true) (fun _ => 0)
      []).ok = true :=
  ⟨rfl, rfl, rfl⟩

/-- C5 amended: a sequence of zero or one record performs no inter-frame gap
computation (no sleep happens), and a zero-record table completes with zero
frames sent, returns success and does not crash; however the final progress
computation is not guarded: for the empty sequence its divisor
`content_size` is `0`, so a division by zero does occur there (yielding NaN,
printed, without a crash). -/
theorem replay_zero_one_record_edge_cases (sOk : ℕ → Bool)
    (fOk : CanRecord → Bool) (ovh : ℕ → ℚ) (r : CanRecord) :
    (send_can_messages sOk fOk ovh []).sent = 0 ∧
    (send_can_messages sOk fOk ovh []).ok = true ∧
    (send_can_messages sOk fOk ovh []).sleeps = [] ∧
    (send_can_messages sOk fOk ovh []).finalPercDen = 0 ∧
    (send_can_messages sOk fOk ovh [r]).sleeps = [] := by
  refine ⟨rfl, rfl, rfl, rfl, ?_⟩
  cases hr : fOk r with
  | false => simp [send_can_messages, sendLoop, hr]
  | true =>
      cases hs : sOk 0 with
      | false => simp [send_can_messages, sendLoop, hr, hs]
      | true => simp [send_can_messages, sendLoop, hr, hs]

/-- No record whose identifier is in the exclusion list is ever collected
into the replay sequence. -/
theorem loadLoop_no_excluded (exclude : List ℕ) :
    ∀ rows : List (Except Unit (List PqField)),
      ∀ r ∈ (loadLoop exclude rows).1, r.id ∉ exclude
  | [] => by simp [loadLoop]
  | .error e :: rest => by simp [loadLoop]
  | .ok row :: rest => by
      cases hpr : process_row row with
      | none =>
          simpa [loadLoop, hpr] using loadLoop_no_excluded exclude rest
      | some r =>
          by_cases hmem : r.id ∈ exclude
          · simpa [loadLoop, hpr, hmem] using loadLoop_no_excluded exclude rest
          · intro x hx
            simp [loadLoop, hpr, hmem] at hx
            rcases hx with rfl | hx
            · exact hmem
            · exact loadLoop_no_excluded exclude rest x hx

/-- C8: exclusion is applied before collection into the replay sequence — the
collected content never contains an excluded identifier, so an excluded
record's timestamp never enters any gap computation. For records with
identifiers `{1, 2, 3}` (timestamps 0, 1, 3) and exclusion set `{2}`, replay
processes exactly the two frames `1` and `3`, and the single gap is computed
between their own timestamps (`3 − 0` seconds, i.e. 3,000,000 µs), not
against the excluded record's. -/
theorem exclusion_before_collection :
    (∀ (exclude : List ℕ) (rows : List (Except Unit (List PqField))),
      ∀ r ∈ (loadLoop exclude rows).1, r.id ∉ exclude) ∧
    (loadLoop [2] canRows3).1.map CanRecord.id = [1, 3] ∧
    (send_can_messages (fun _ => true) (fun _ => true) (fun _ => 0)
      (loadLoop [2] canRows3).1).sent = 2 ∧
    (send_can_messages (fun _ => true) (fun _ => true) (fun _ => 0)
      (loadLoop [2] canRows3).1).sleeps = [3000000] := by
  refine ⟨loadLoop_no_excluded, ?_, ?_, ?_⟩
  · norm_num [canRows3, loadLoop, process_row]
  · norm_num [canRows3, loadLoop, process_row, send_can_messages, sendLoop]
  · norm_num [canRows3, loadLoop, process_row, send_can_messages, sendLoop,
      udiff]
    rfl

theorem exclusion_before_collection_witness :
    (⟨0, 1, []⟩ : CanRecord).id ∉ ([2] : List ℕ) :=
  exclusion_before_collection.1 [2] canRows3 ⟨0, 1, []⟩
    (by norm_num [canRows3, loadLoop, process_row])

/-- C4 counterexample: a row the table reader fails to decode is *not*
skipped-and-counted — `while let Some(Ok(row))` exits the loading loop, so a
perfectly well-formed row that follows it is never loaded (and the malformed
row is not counted either): loading yields no content and zero counts. -/
theorem malformed_row_stops_loading :
    process_row goodRow = some ⟨1, 5, []⟩ ∧
    loadLoop [] [Except.error (), Except.ok goodRow] = ([], 0, 0) :=
  ⟨rfl, rfl⟩

/-- C4 amended: a row whose *field extraction* fails (wrong field types or
arity) is indeed skipped, counted in `elem`, and not fatal — the rows after
it are still loaded; but a row the table *reader* fails to decode terminates
loading at that point, so the rows after it (well-formed or not) are not
loaded. -/
theorem malformed_row_tolerance (exclude : List ℕ) (row : List PqField)
    (rest : List (Except Unit (List PqField)))
    (hbad : process_row row = none) :
    (loadLoop exclude (Except.ok row :: rest)).1 = (loadLoop exclude rest).1 ∧
    (loadLoop exclude (Except.ok row :: rest)).2.1 =
      (loadLoop exclude rest).2.1 ∧
    (loadLoop exclude (Except.ok row :: rest)).2.2 =
      (loadLoop exclude rest).2.2 + 1 ∧
    (∀ rest2 : List (Except Unit (List PqField)),
      loadLoop exclude (Except.error () :: rest2) = ([], 0, 0)) := by
  refine ⟨?_, ?_, ?_, fun rest2 => rfl⟩ <;> simp [loadLoop, hbad]

theorem malformed_row_tolerance_witness :
    (loadLoop [] (Except.ok [PqField.otherF] :: [Except.ok goodRow])).1 =
      (loadLoop [] [Except.ok goodRow]).1 :=
  (malformed_row_tolerance [] [PqField.otherF] [Except.ok goodRow] rfl).1

/-- C10: the exclusion-list parser never fails: a value appears in the result
iff some comma-separated entry's pipeline (trim, then strip the literal `0x`,
then parse as hexadecimal `u32`) produces it; an entry lacking the prefix or
with an invalid remainder is silently dropped, a string of only such entries
yields the empty set, and an absent or empty input yields the empty set. -/
theorem parse_hex_list_total :
    parse_hex_list none = [] ∧
    parse_hex_list (some []) = [] ∧
    (∀ (s : List Char) (v : ℕ),
      v ∈ parse_hex_list (some s) ↔
        ∃ e ∈ splitComma s, entryVal e = some v) ∧
    (∀ s : List Char, (∀ e ∈ splitComma s, entryVal e = none) →
      parse_hex_list (some s) = []) ∧
    parse_hex_list
        (some "0x0A,zz, 0x1F ,0x,0X2C,0x-0,\u00A00x2C\u00A0".toList) =
      [10, 31, 44] := by
  refine ⟨rfl, rfl, ?_, ?_, by decide⟩
  · intro s v
    simp [parse_hex_list, List.mem_filterMap]
  · intro s h
    simp only [parse_hex_list, Option.getD_some]
    rw [List.filterMap_eq_nil_iff]
    exact h

theorem parse_hex_list_total_witness :
    parse_hex_list (some "zz".toList) = [] :=
  parse_hex_list_total.2.2.2.1 "zz".toList (by decide)
